import Mathlib

/-!
Shallow embedding of `blocks/groundhog/examples/sine.py` (and the data it
manipulates), used to verify the specification's claims about the custom
bricks `Readout` and `AddParameters`, the synthetic `SeriesIterator`, and
the `main` entry point's plot mode.

Numeric values are modelled as rationals; tensors as nested lists; Python
dictionaries of keyword arguments as functions `String → Option Vec`;
fallible Python code (IndexError, AssertionError, KeyError) as
`Except` / `Option` results.
-/

/-- A numeric vector (one row of a floatX array). -/
abbrev Vec := List ℚ

/-- Elementwise sum of two vectors (numpy `+` on equal-length rows). -/
def addVec (x y : Vec) : Vec := List.zipWith (· + ·) x y

/-- Dot product of two vectors. -/
def dotVec (x y : Vec) : ℚ := (List.zipWith (· * ·) x y).sum

/-- Matrix–vector product, the matrix given as a list of rows. -/
def matVec (W : List Vec) (x : Vec) : Vec := W.map (fun r => dotVec r x)

/-- An `MLP([Identity()])` brick from `blocks.bricks`: a single affine
(linear) transformation.  `dims` is the allocation-config list of layer
dimensionalities (length 2 for a single-layer MLP; entries are `none`
until an allocation config is pushed, mirroring the lazy `None` dims). -/
structure MLP where
  name : String
  dims : List (Option Nat)
  W : List Vec
  b : Vec
deriving Repr, DecidableEq, Inhabited

/-- Application of a single-layer `MLP([Identity()])`: the affine map
`W·x + b` followed by the identity activation. -/
def MLP.apply (m : MLP) (x : Vec) : Vec := addVec (matVec m.W x) m.b

/-- A fresh (unallocated) single-layer MLP with the given brick name,
as built by `MLP([Identity()], name=...)` in `AddParameters.__init__`. -/
def MLP.fresh (name : String) : MLP :=
  { name := name, dims := [none, none], W := [], b := [] }

/-- Keyword arguments of an apply call: a Python dict mapping names to
vector values (`none` = key absent). -/
abbrev Kwargs := String → Option Vec

/-- A state-initialization function, as stored in
`signature.state_init_funcs` (may fail on missing keyword arguments). -/
abbrev InitFunc := Kwargs → Option Vec

/-- The signature object returned by `transition.apply.signature()`:
named forkable inputs, named states, named contexts, a per-name
dimensionality table and a per-state init-function table. -/
structure TransitionSignature where
  forkable_input_names : List String
  state_names : List String
  context_names : List String
  dims : String → Nat
  state_init_funcs : String → Option InitFunc

/-- A recurrent transition brick, abstracted to the two members
`AddParameters` consumes: its apply signature and its apply function. -/
structure Transition where
  applySignature : TransitionSignature
  applyFn : Kwargs → Vec

/-- How a Python constructor can abort in `AddParameters.__init__` /
`_push_allocation_config`: an out-of-bounds list access
(`signature.state_names[0]` on an empty list) or a failed `assert`. -/
inductive InitError where
  | indexError
  | assertionError
deriving Repr, DecidableEq

/-- The `AddParameters` brick after successful construction: the wrapped
transition, the parameter dimensionality and name, the cached input /
state names, one adder MLP per forkable input, and the init MLP. -/
structure AddParameters where
  transition : Transition
  num_params : Nat
  params_name : String
  input_names : List String
  state_name : String
  adders : List MLP
  init : MLP

/-- `AddParameters.__init__` (sine.py lines 50-67): reads the wrapped
transition's signature, caches the forkable input names, takes
`state_names[0]` as the single state name (IndexError when there is no
state), asserts that there is exactly one state name (AssertionError
otherwise), then creates one `MLP([Identity()], name="add_<input>")`
per forkable input and one `MLP([Identity()], name="init")`. -/
def AddParameters.make (transition : Transition) (num_params : Nat)
    (params_name : String) : Except InitError AddParameters :=
  let signature := transition.applySignature
  let input_names := signature.forkable_input_names
  match signature.state_names with
  | [] => .error .indexError
  | state_name :: rest =>
    if rest.length + 1 = 1 then
      .ok { transition := transition
            num_params := num_params
            params_name := params_name
            input_names := input_names
            state_name := state_name
            adders := input_names.map (fun input_name =>
              MLP.fresh ("add_" ++ input_name))
            init := MLP.fresh "init" }
    else .error .assertionError

/-- Write `a` into `dims[0]` and `b` into `dims[-1]` (Python negative
index: the last position), as `_push_allocation_config` does on each
adder and on the init brick. -/
def setFirstLast (dims : List (Option Nat)) (a b : Nat) : List (Option Nat) :=
  let dims' := dims.set 0 (some a)
  dims'.set (dims'.length - 1) (some b)

/-- `AddParameters._push_allocation_config` (sine.py lines 69-76): for
each (adder, input name) pair, sets the adder's input dimensionality to
`num_params` and its output dimensionality to the transition's declared
dimensionality for that input; then does the same for the init brick
with the declared dimensionality of `state_names[0]` (IndexError when
there is no state), and re-asserts the single-state condition. -/
def AddParameters.push_allocation_config (ap : AddParameters) :
    Except InitError AddParameters :=
  let signature := ap.transition.applySignature
  let adders := (ap.adders.zip ap.input_names).map (fun p =>
    { p.1 with dims := setFirstLast p.1.dims ap.num_params (signature.dims p.2) })
  match signature.state_names with
  | [] => .error .indexError
  | state_name :: rest =>
    let init :=
      { ap.init with
        dims := setFirstLast ap.init.dims ap.num_params (signature.dims state_name) }
    if rest.length + 1 = 1 then
      .ok { ap with adders := adders, init := init }
    else .error .assertionError

/-- Python `dict.pop(name)`: the value at `name` and the dict with that
key removed; `none` models the KeyError raised when the key is absent. -/
def pop (kwargs : Kwargs) (name : String) : Option (Vec × Kwargs) :=
  match kwargs name with
  | none => none
  | some v => some (v, fun n => if n = name then none else kwargs n)

/-- The dict comprehension
`inputs = {name: kwargs.pop(name) for name in self.input_names}`:
pops each listed name in order, accumulating the popped (name, value)
pairs and threading the shrinking kwargs dict; fails (KeyError) as soon
as a name is absent. -/
def popAll : List String → Kwargs → Option (List (String × Vec) × Kwargs)
  | [], kwargs => some ([], kwargs)
  | name :: rest, kwargs =>
    match pop kwargs name with
    | none => none
    | some (v, kwargs1) =>
      match popAll rest kwargs1 with
      | none => none
      | some (pairs, kwargs2) => some ((name, v) :: pairs, kwargs2)

/-- Lookup in the `inputs` dict (association-list model). -/
def alLookup : List (String × Vec) → String → Option Vec
  | [], _ => none
  | p :: rest, k => if p.1 = k then some p.2 else alLookup rest k

/-- In-place value update `inputs[k] = v` for an existing key `k`. -/
def alUpdate (l : List (String × Vec)) (k : String) (v : Vec) :
    List (String × Vec) :=
  l.map (fun p => if p.1 = k then (k, v) else p)

/-- The loop `for name, adder in zip(self.input_names, self.adders):
inputs[name] = inputs[name] + adder.apply(params)`: each listed input's
entry gets the adder's projection of `params` added to it; fails
(KeyError) if a listed name has no entry. -/
def addAdders : List (String × MLP) → Vec → List (String × Vec) →
    Option (List (String × Vec))
  | [], _, inputs => some inputs
  | (name, adder) :: rest, params, inputs =>
    match alLookup inputs name with
    | none => none
    | some v =>
      addAdders rest params (alUpdate inputs name (addVec v (adder.apply params)))

/-- `AddParameters.apply` (sine.py lines 85-92): pops every forkable
input out of the keyword arguments, pops `"params"`, adds each adder's
projection of the parameter vector to the corresponding input, writes
the updated inputs back (`kwargs.update(inputs)`) and calls the wrapped
transition's apply on the result. -/
def AddParameters.apply (ap : AddParameters) (kwargs : Kwargs) : Option Vec :=
  match popAll ap.input_names kwargs with
  | none => none
  | some (inputs, kwargs1) =>
    match pop kwargs1 "params" with
    | none => none
    | some (params, kwargs2) =>
      match addAdders (ap.input_names.zip ap.adders) params inputs with
      | none => none
      | some inputs2 =>
        some (ap.transition.applyFn (fun n =>
          match alLookup inputs2 n with
          | some v => some v
          | none => kwargs2 n))

/-- `AddParameters.initialize_state` (sine.py lines 102-104): returns
`self.init.apply(kwargs[self.params_name])`; `none` models the KeyError
when the params keyword is absent. -/
def AddParameters.initialize_state (ap : AddParameters) (kwargs : Kwargs) :
    Option Vec :=
  (kwargs ap.params_name).map ap.init.apply

/-- `AddParameters.apply_signature` (sine.py lines 94-100): takes the
wrapped transition's signature, appends `params_name` to the context
names, registers `initialize_state` as the init function of the single
state name, and records `num_params` as the dimensionality of
`params_name`. -/
def AddParameters.apply_signature (ap : AddParameters) : TransitionSignature :=
  let signature := ap.transition.applySignature
  { signature with
    context_names := signature.context_names ++ [ap.params_name]
    state_init_funcs := fun n =>
      if n = ap.state_name then some ap.initialize_state
      else signature.state_init_funcs n
    dims := fun n =>
      if n = ap.params_name then ap.num_params else signature.dims n }

/-- The state of a seeded `numpy.random.RandomState`: the infinite
stream of uniform draws the seed determines, plus how many draws have
been consumed so far. -/
structure RngState where
  stream : Nat → ℚ
  counter : Nat

/-- `rng.uniform(size=(rows, cols))`: a rows×cols matrix of the next
`rows * cols` draws in row-major order, together with the advanced
generator state. -/
def RngState.uniformMatrix (rng : RngState) (rows cols : Nat) :
    List (List ℚ) × RngState :=
  ((List.range rows).map (fun r =>
      (List.range cols).map (fun c => rng.stream (rng.counter + r * cols + c))),
   { rng with counter := rng.counter + rows * cols })

/-- The batch dict returned by `SeriesIterator.next`:
`dict(x=x, params=params)`. -/
structure Batch where
  x : List (List (List ℚ))
  params : List (List ℚ)
deriving DecidableEq

/-- How `SeriesIterator.next` can abort: calling the user function
with the wrong number of positional arguments raises a TypeError. -/
inductive PyError where
  | typeError
deriving Repr, DecidableEq

/-- The user-supplied analytic Python function: `arity` is its declared
positional-argument count (`len(inspect.getargspec(func).args)`), and
`eval` is its pointwise value under the one calling convention in which
`SeriesIterator.next`'s call succeeds.  `next` passes exactly two
positional arguments — the list holding the parameter columns, and the
time vector (sine.py lines 121-122 splat the two-element list
`[list(params.T)] + [i * numpy.ones(self.batch_size)]`) — so the call
raises TypeError unless `arity = 2`.  In that case (one parameter plus
the time step) numpy broadcasting applies the function pointwise to
the entries of the single parameter column and the scalar time step,
which `eval` captures; for any other arity the function's body is
never reached by `next`. -/
structure PyFunc where
  arity : Nat
  eval : ℚ → ℚ → ℚ

/-- `SeriesIterator` (sine.py lines 107-113): a random source, the
analytic function, the sequence length and the batch size;
`num_params` is the function's declared argument count minus one (the
last argument is the time step), as computed from
`inspect.getargspec`. -/
structure SeriesIterator where
  rng : RngState
  func : PyFunc
  seq_len : Nat
  batch_size : Nat
  num_params : Nat

/-- `SeriesIterator.__init__`: stores the constructor arguments and
sets `num_params = len(inspect.getargspec(func).args) - 1`. -/
def SeriesIterator.make (rng : RngState) (func : PyFunc)
    (seq_len : Nat) (batch_size : Nat) : SeriesIterator :=
  { rng := rng, func := func, seq_len := seq_len, batch_size := batch_size
    num_params := func.arity - 1 }

/-- `SeriesIterator.next` (sine.py lines 115-124): draws a
(batch_size × num_params) uniform parameter matrix, then loops over
the time steps, each iteration calling the user function with exactly
two positional arguments
(`self.func(*([list(params.T)] + [i * numpy.ones(self.batch_size)]))`).
With a positive sequence length and a function whose declared arity is
not 2, the first iteration raises TypeError and no batch is produced.
Otherwise (arity 2, so iterators built by `__init__` carry
`num_params = 1`) broadcasting fills `x[i, b, 0]` with the function's
pointwise value at the b-th entry of the single parameter column and
time step `i`, and the batch is returned together with the advanced
random state; a zero-length sequence skips the loop and never calls
the function. -/
def SeriesIterator.next (it : SeriesIterator) :
    Except PyError (Batch × SeriesIterator) :=
  let drawn := it.rng.uniformMatrix it.batch_size it.num_params
  let params := drawn.1
  if it.func.arity = 2 ∨ it.seq_len = 0 then
    .ok (⟨(List.range it.seq_len).map (fun (i : Nat) =>
        (List.range it.batch_size).map (fun (b : Nat) =>
          [it.func.eval ((params.getD b []).getD 0 0) ((i : ℚ))])),
      params⟩, { it with rng := drawn.2 })
  else .error .typeError

/-- The outcome of the k-th call of `next` (0-indexed): iterate
`next`, keeping the advanced iterator between successful calls; a
raised TypeError propagates. -/
def SeriesIterator.nth_next (it : SeriesIterator) :
    Nat → Except PyError (Batch × SeriesIterator)
  | 0 => it.next
  | k + 1 =>
    match it.next with
    | .error e => .error e
    | .ok (_, it2) => it2.nth_next k

/-- A 3-dimensional floatX tensor (time × batch × feature). -/
abbrev T3 := List (List (List ℚ))

/-- Elementwise numpy subtraction of two equal-shape 3-d tensors. -/
def sub3 (a b : T3) : T3 :=
  List.zipWith (List.zipWith (List.zipWith (fun x y => x - y))) a b

/-- Elementwise numpy `** 2` on a 3-d tensor. -/
def sq3 (a : T3) : T3 := a.map (List.map (List.map (fun x => x ^ 2)))

/-- numpy `.sum(axis=ndim - 1)`: sum over the last (feature) axis. -/
def sumLastAxis (a : T3) : List (List ℚ) := a.map (List.map List.sum)

/-- `Readout.cost` (sine.py lines 35-38):
`((readouts - outputs) ** 2).sum(axis=readouts.ndim - 1)`. -/
def Readout.cost (readouts outputs : T3) : List (List ℚ) :=
  sumLastAxis (sq3 (sub3 readouts outputs))

/-- `Readout.__init__` passes `readout_dim=1` to `SimpleReadout`. -/
def Readout.readout_dim : Nat := 1

/-- `Readout.__init__` passes `source_names=['states']`. -/
def Readout.source_names : List String := ["states"]

/-- The path `main`'s plot mode passes to `load_params` (sine.py line
194): `args.prefix + "model.npz"`. -/
def plot_load_path (pfx : String) : String := pfx ++ "model.npz"

/-- Every path passed to `load_params` in `main`'s plot branch: line 194
holds the branch's only `load_params` call, so the list is a singleton. -/
def plot_param_load_paths (pfx : String) : List String := [plot_load_path pfx]

/-- Specification of what the adder loop does to the entry at key `n`:
fold over the (name, adder) pairs, adding the adder's projection of
`params` whenever the pair's name is `n`. -/
def addedValue (l : List (String × MLP)) (params : Vec) (n : String)
    (v : Option Vec) : Option Vec :=
  l.foldl (fun acc p =>
    if p.1 = n then acc.map (fun x => addVec x (p.2.apply params)) else acc) v

/-- Dimensionality table of the example's wrapped `GatedRecurrent`
transition: distinct dimensionalities per name, for concrete tests. -/
def sineDims : String → Nat := fun n =>
  if n = "inputs" then 10 else if n = "update_inputs" then 11
  else if n = "reset_inputs" then 12 else if n = "states" then 13 else 0

/-- A concrete apply signature with three forkable inputs and one state
variable, shaped like the sine example's `GatedRecurrent` transition. -/
def gatedSignature : TransitionSignature :=
  { forkable_input_names := ["inputs", "update_inputs", "reset_inputs"]
    state_names := ["states"]
    context_names := []
    dims := sineDims
    state_init_funcs := fun _ => none }

/-- A concrete transition with exactly one state variable. -/
def gatedTransition : Transition :=
  { applySignature := gatedSignature
    applyFn := fun kw => (kw "states").getD [] }

/-- A concrete transition exposing two state variables. -/
def twoStateTransition : Transition :=
  { applySignature := { gatedSignature with state_names := ["states", "cells"] }
    applyFn := fun kw => (kw "states").getD [] }

/-- A concrete transition exposing zero state variables. -/
def zeroStateTransition : Transition :=
  { applySignature := { gatedSignature with state_names := [] }
    applyFn := fun kw => (kw "states").getD [] }

/-- A concrete one-input, one-state transition for apply-level tests. -/
def smallTransition : Transition :=
  { applySignature :=
      { forkable_input_names := ["inputs"]
        state_names := ["states"]
        context_names := []
        dims := fun _ => 1
        state_init_funcs := fun _ => none }
    applyFn := fun kw => (kw "inputs").getD [] }

/-- A concrete fully-built `AddParameters` wrapper over
`smallTransition`, with explicit adder and init weights. -/
def smallAddParameters : AddParameters :=
  { transition := smallTransition
    num_params := 1
    params_name := "params"
    input_names := ["inputs"]
    state_name := "states"
    adders := [{ name := "add_inputs", dims := [some 1, some 1]
                 W := [[2]], b := [1] }]
    init := { name := "init", dims := [some 1, some 1], W := [[3]], b := [0] } }

/-- Concrete keyword arguments providing the single forkable input and
the parameter vector. -/
def smallKwargs : Kwargs := fun n =>
  if n = "inputs" then some [5]
  else if n = "params" then some [4] else none

/-- A concrete seeded random source: the stream determined by seed 1,
abstracted as an explicit rational-valued sequence, no draws consumed. -/
def rng0 : RngState := { stream := fun n => (n : ℚ) / 7, counter := 0 }

/-- A concrete analytic function of declared arity 2 (one parameter
plus the time step): `lambda a, x: a * x`. -/
def func0 : PyFunc := { arity := 2, eval := fun p t => p * t }

/-- A concrete series iterator over `func0`, sequence length 3, batch
size 2. -/
def it0 : SeriesIterator := SeriesIterator.make rng0 func0 3 2

/-- A concrete analytic function of declared arity 3 (two parameters
plus the time step, e.g. `lambda a, b, x: (a + b) * x`); its body is
never reached by `next`, which calls it with only two positional
arguments. -/
def func3 : PyFunc := { arity := 3, eval := fun p t => p * t }

/-- A concrete iterator over the arity-3 function, sequence length 3,
batch size 2: its first call of `next` raises TypeError. -/
def it3a : SeriesIterator := SeriesIterator.make rng0 func3 3 2

/-- A second concrete iterator over the arity-3 function, sequence
length 2, batch size 1. -/
def it3b : SeriesIterator := SeriesIterator.make rng0 func3 2 1

/-- A concrete 3-d tensor (2 time steps × 1 example × 2 features). -/
def tensor0 : T3 := [[[1, 2]], [[3, 5]]]

/-- A second concrete 3-d tensor of the same shape as `tensor0`. -/
def tensor1 : T3 := [[[0, 4]], [[3, 1]]]

/-- Zipping a mapped list with the original list pairs each element with
its image. -/
theorem zip_map_self {α β : Type} (f : α → β) :
    ∀ l : List α, (l.map f).zip l = l.map (fun a => (f a, a))
  | [] => rfl
  | a :: t => by simp [zip_map_self f t]

/-- Pushing an allocation config into a fresh two-entry dims list sets
exactly the input and output dimensionalities. -/
theorem setFirstLast_fresh (a b : Nat) :
    setFirstLast [none, none] a b = [some a, some b] := rfl

/-- C2: constructing `AddParameters` over a transition exposing two or
more state variables fails the single-state assertion: the constructor
aborts with an AssertionError and no wrapper value is produced. -/
theorem AddParameters.make_two_states_assertion
    (t : Transition) (np : Nat) (pn : String)
    (h : 2 ≤ t.applySignature.state_names.length) :
    AddParameters.make t np pn = .error .assertionError ∧
    ∀ ap, AddParameters.make t np pn ≠ .ok ap := by
  have hmain : AddParameters.make t np pn = .error .assertionError := by
    unfold AddParameters.make
    rcases hs : t.applySignature.state_names with _ | ⟨a, rest⟩
    · rw [hs] at h; simp at h
    · rw [hs] at h
      simp only [List.length_cons] at h
      simp only [hs]
      rw [if_neg (by omega)]
  exact ⟨hmain, fun ap hap => by rw [hmain] at hap; cases hap⟩

/-- C2 witness: on the concrete two-state transition, construction
fails with the assertion error. -/
theorem AddParameters.make_two_states_assertion_witness :
    AddParameters.make twoStateTransition 2 "params"
      = .error .assertionError ∧
    ∀ ap, AddParameters.make twoStateTransition 2 "params" ≠ .ok ap :=
  AddParameters.make_two_states_assertion twoStateTransition 2 "params"
    (by decide)

/-- C10: on a transition exposing zero state variables the constructor
also fails, but with the out-of-bounds access (`state_names[0]`) raised
before the assertion runs; construction succeeds exactly when the
transition exposes exactly one state variable. -/
theorem AddParameters.make_zero_states_index_error
    (t : Transition) (np : Nat) (pn : String) :
    (t.applySignature.state_names = [] →
      AddParameters.make t np pn = .error .indexError) ∧
    ((∃ ap, AddParameters.make t np pn = .ok ap) ↔
      t.applySignature.state_names.length = 1) := by
  constructor
  · intro h
    unfold AddParameters.make
    simp only [h]
  · rcases hs : t.applySignature.state_names with _ | ⟨a, rest⟩
    · unfold AddParameters.make
      simp [hs]
    · rcases rest with _ | ⟨b, rest2⟩
      · unfold AddParameters.make
        simp [hs]
      · unfold AddParameters.make
        simp [hs]

/-- C10 witness: on the concrete zero-state transition, construction
fails with the IndexError, and on the concrete one-state transition it
succeeds. -/
theorem AddParameters.make_zero_states_index_error_witness :
    AddParameters.make zeroStateTransition 2 "params" = .error .indexError ∧
    ∃ ap, AddParameters.make gatedTransition 2 "params" = .ok ap :=
  ⟨(AddParameters.make_zero_states_index_error zeroStateTransition 2
      "params").1 rfl,
   (AddParameters.make_zero_states_index_error gatedTransition 2
      "params").2.mpr (by decide)⟩

/-- C9: the plot mode loads the model parameter snapshot from exactly
one path, `prefix + "model.npz"`; the path is nine characters longer
than the CLI-supplied value. -/
theorem plot_mode_load_path_spec (pfx : String) :
    plot_param_load_paths pfx = [pfx ++ "model.npz"] ∧
    (plot_load_path pfx).length = pfx.length + 9 := by
  refine ⟨rfl, ?_⟩
  have h9 : "model.npz".length = 9 := by decide
  simp [plot_load_path, String.length_append, h9]
/-- Summing the squares of a vector's elementwise difference with
itself gives zero. -/
theorem sum_sq_sub_self (v : List ℚ) :
    ((List.zipWith (fun x y => x - y) v v).map (fun x => x ^ 2)).sum = 0 := by
  rw [List.zipWith_same, List.map_map]
  have h : (fun x => x ^ 2) ∘ (fun a : ℚ => a - a) = fun _ : ℚ => (0 : ℚ) := by
    funext a; simp
  rw [h]
  induction v with
  | nil => rfl
  | cons a t ih => simp [ih]

/-- C8: on a batch where the predicted sequence equals the target
sequence elementwise, `Readout.cost` evaluates to exactly zero for
every example and time step. -/
theorem Readout.cost_zero_on_equal (r : T3) :
    ∀ row ∈ Readout.cost r r, ∀ c ∈ row, c = 0 := by
  intro row hrow c hc
  simp only [Readout.cost, sumLastAxis, sq3, sub3, List.zipWith_same,
    List.map_map] at hrow
  obtain ⟨m, _, rfl⟩ := List.mem_map.mp hrow
  simp only [Function.comp, List.zipWith_same, List.map_map] at hc
  obtain ⟨v, _, rfl⟩ := List.mem_map.mp hc
  have h2 := sum_sq_sub_self v
  rw [List.zipWith_same, List.map_map] at h2
  simp only [Function.comp_apply]
  rw [List.map_map]
  exact h2

/-- C8 witness: a concrete entry of the cost of a batch against itself
is zero. -/
theorem Readout.cost_zero_on_equal_witness :
    ((Readout.cost tensor0 tensor0).getD 0 []).getD 0 1 = 0 := by
  have hcost : Readout.cost tensor0 tensor0 = [[0], [0]] := by
    simp [Readout.cost, sumLastAxis, sq3, sub3, tensor0]
  exact Readout.cost_zero_on_equal tensor0
    ((Readout.cost tensor0 tensor0).getD 0 []) (by rw [hcost]; simp)
    (((Readout.cost tensor0 tensor0).getD 0 []).getD 0 1) (by rw [hcost]; simp)
/-- C7: `Readout.cost` on equal-shape predicted and target sequences
returns, per time step and example, the sum over the feature axis of
the squared elementwise differences. -/
theorem Readout.cost_sum_squared_error
    (r o : T3) (i b : Nat)
    (hlen : r.length = o.length)
    (hi : i < r.length)
    (hrow : (r.getD i []).length = (o.getD i []).length)
    (hb : b < (r.getD i []).length) :
    ((Readout.cost r o).getD i []).getD b 0 =
      (List.zipWith (fun x y => (x - y) ^ 2)
        ((r.getD i []).getD b []) ((o.getD i []).getD b [])).sum := by
  have hio : i < o.length := hlen ▸ hi
  rw [List.getD_eq_getElem r [] hi] at hrow hb ⊢
  rw [List.getD_eq_getElem o [] hio] at hrow ⊢
  have hbo : b < (o[i]).length := hrow ▸ hb
  rw [List.getD_eq_getElem (r[i]) [] hb, List.getD_eq_getElem (o[i]) [] hbo]
  have hclen : i < (Readout.cost r o).length := by
    simp only [Readout.cost, sumLastAxis, sq3, sub3, List.length_map,
      List.length_zipWith]
    omega
  rw [List.getD_eq_getElem _ [] hclen]
  simp only [Readout.cost, sumLastAxis, sq3, sub3]
  rw [List.getElem_map, List.getElem_map, List.getElem_zipWith]
  have hblen : b < (List.map List.sum (List.map (List.map (fun x => x ^ 2))
      (List.zipWith (List.zipWith (fun x y => x - y)) (r[i]) (o[i])))).length := by
    simp only [List.length_map, List.length_zipWith]
    omega
  rw [List.getD_eq_getElem _ 0 hblen, List.getElem_map, List.getElem_map,
    List.getElem_zipWith, List.map_zipWith]

/-- C7 witness: the cost formula instantiated at a concrete pair of
equal-shape tensors, time step 1 and example 0. -/
theorem Readout.cost_sum_squared_error_witness :
    ((Readout.cost tensor0 tensor1).getD 1 []).getD 0 0 =
      (List.zipWith (fun x y => (x - y) ^ 2)
        ((tensor0.getD 1 []).getD 0 []) ((tensor1.getD 1 []).getD 0 [])).sum :=
  Readout.cost_sum_squared_error tensor0 tensor1 1 0 (by decide) (by decide)
    (by decide) (by decide)
/-- Indexing a mapped range with a default: inside bounds, the default
is irrelevant and the function is applied to the index. -/
theorem getD_map_range {α : Type} (n : Nat) (f : Nat → α) (d : α) (i : Nat)
    (hi : i < n) : ((List.range n).map f).getD i d = f i := by
  rw [List.getD_eq_getElem _ d (by simpa using hi), List.getElem_map,
    List.getElem_range]

/-- Any call of `next` succeeds when the analytic function's declared
arity is 2, and the surviving iterator differs only in the advanced
random state. -/
theorem SeriesIterator.next_ok_of_arity (it : SeriesIterator)
    (h : it.func.arity = 2) :
    ∃ batch, it.next = Except.ok (batch,
      { it with rng := (it.rng.uniformMatrix it.batch_size it.num_params).2 }) := by
  simp only [SeriesIterator.next]
  rw [if_pos (Or.inl h)]
  exact ⟨_, rfl⟩

/-- Every k-th call of `next` succeeds when the analytic function's
declared arity is 2. -/
theorem SeriesIterator.nth_next_ok : ∀ (k : Nat) (it : SeriesIterator),
    it.func.arity = 2 →
    ∃ batch itk, it.nth_next k = Except.ok (batch, itk)
  | 0, it, h => by
    obtain ⟨b, hb⟩ := it.next_ok_of_arity h
    exact ⟨b, _, hb⟩
  | k + 1, it, h => by
    obtain ⟨b, hb⟩ := it.next_ok_of_arity h
    obtain ⟨b2, itk, hk⟩ := nth_next_ok k
      { it with rng := (it.rng.uniformMatrix it.batch_size it.num_params).2 } h
    refine ⟨b2, itk, ?_⟩
    show (match it.next with
      | Except.error e => Except.error e
      | Except.ok (_, it2) => it2.nth_next k) = Except.ok (b2, itk)
    rw [hb]
    exact hk

/-- C6 (amended): the generator is deterministic given the random
source's state for the functions `next` can evaluate at all: two
iterators over identically-seeded random sources, the same analytic
function of declared arity 2, the same sequence length and batch size
(and hence the same derived parameter count) produce the same batch on
every k-th call of next. -/
theorem SeriesIterator.reproducible
    (it1 it2 : SeriesIterator)
    (hrng : it1.rng = it2.rng) (hfunc : it1.func = it2.func)
    (hlen : it1.seq_len = it2.seq_len)
    (hbatch : it1.batch_size = it2.batch_size)
    (hnum : it1.num_params = it2.num_params)
    (harity : it1.func.arity = 2) :
    ∀ k, ∃ batch it1k it2k,
      it1.nth_next k = Except.ok (batch, it1k) ∧
      it2.nth_next k = Except.ok (batch, it2k) := by
  have h : it1 = it2 := by
    cases it1; cases it2; simp_all
  subst h
  intro k
  obtain ⟨b, itk, hk⟩ := SeriesIterator.nth_next_ok k it1 harity
  exact ⟨b, itk, itk, hk, hk⟩

/-- C6 witness: two copies of the concrete arity-2 iterator produce
the same batch on their second call of next. -/
theorem SeriesIterator.reproducible_witness :
    ∃ batch it1k it2k,
      it0.nth_next 1 = Except.ok (batch, it1k) ∧
      it0.nth_next 1 = Except.ok (batch, it2k) :=
  SeriesIterator.reproducible it0 it0 rfl rfl rfl rfl rfl rfl 1

/-- C6 counterexample: on two identically-constructed iterators over a
function of declared arity 3, the first call of next raises TypeError
on each, so no batch — let alone equal batches — is produced. -/
theorem SeriesIterator.reproducible_counterexample :
    it3b.nth_next 0 = Except.error PyError.typeError ∧
    ∀ batch itk, it3b.nth_next 0 ≠ Except.ok (batch, itk) := by
  constructor
  · rfl
  · intro batch itk h
    rw [show it3b.nth_next 0 = Except.error PyError.typeError from rfl] at h
    cases h

/-- C5 (amended): one call of next on an iterator built over an
analytic function of declared arity 2 (one parameter plus the time
step, the only arity the generator's two-positional-argument call
accepts) succeeds and yields a (B × 1) parameter batch whose entries
are the next B uniform draws, and an (L × B × 1) sequence batch with
`x[i][b] = [func(params[b][0], i)]`. -/
theorem SeriesIterator.next_shapes_and_values
    (rng : RngState) (f : ℚ → ℚ → ℚ) (L B : Nat)
    (it : SeriesIterator)
    (hit : it = SeriesIterator.make rng ⟨2, f⟩ L B) :
    ∃ batch it2, it.next = Except.ok (batch, it2) ∧
      batch.params.length = B ∧
      (∀ pr ∈ batch.params, pr.length = 1) ∧
      (∀ b : Nat, b < B →
        (batch.params.getD b []).getD 0 0 = rng.stream (rng.counter + b)) ∧
      batch.x.length = L ∧
      (∀ xi ∈ batch.x, xi.length = B) ∧
      (∀ i b : Nat, i < L → b < B →
        (batch.x.getD i []).getD b [] =
          [f ((batch.params.getD b []).getD 0 0) (i : ℚ)]) := by
  subst hit
  refine ⟨_, _, rfl, ?_, ?_, ?_, ?_, ?_, ?_⟩
  · simp [SeriesIterator.make, SeriesIterator.next, RngState.uniformMatrix]
  · intro pr hpr
    simp only [SeriesIterator.make, SeriesIterator.next,
      RngState.uniformMatrix] at hpr
    obtain ⟨b, _, rfl⟩ := List.mem_map.mp hpr
    simp
  · intro b hb
    simp only [SeriesIterator.make, SeriesIterator.next, RngState.uniformMatrix]
    rw [getD_map_range B _ [] b hb, getD_map_range 1 _ 0 0 (by omega)]
    rw [Nat.mul_one, Nat.add_zero]
  · simp [SeriesIterator.make, SeriesIterator.next, RngState.uniformMatrix]
  · intro xi hxi
    simp only [SeriesIterator.make, SeriesIterator.next,
      RngState.uniformMatrix] at hxi
    obtain ⟨i, _, rfl⟩ := List.mem_map.mp hxi
    simp
  · intro i b hi hb
    simp only [SeriesIterator.make, SeriesIterator.next, RngState.uniformMatrix]
    rw [getD_map_range L _ [] i hi, getD_map_range B _ [] b hb]

/-- C5 witness: on the concrete arity-2 iterator (sequence length 3,
batch size 2) one call of next succeeds with the claimed shapes and
values. -/
theorem SeriesIterator.next_shapes_and_values_witness :
    ∃ batch it2, it0.next = Except.ok (batch, it2) ∧
      batch.params.length = 2 ∧
      (∀ pr ∈ batch.params, pr.length = 1) ∧
      (∀ b : Nat, b < 2 →
        (batch.params.getD b []).getD 0 0 = rng0.stream (rng0.counter + b)) ∧
      batch.x.length = 3 ∧
      (∀ xi ∈ batch.x, xi.length = 2) ∧
      (∀ i b : Nat, i < 3 → b < 2 →
        (batch.x.getD i []).getD b [] =
          [func0.eval ((batch.params.getD b []).getD 0 0) (i : ℚ)]) :=
  SeriesIterator.next_shapes_and_values rng0 func0.eval 3 2 it0 rfl

/-- C5 counterexample: on an iterator built over a function of
declared arity 3 (two parameters plus the time step) with positive
sequence length, next raises TypeError and returns no batch, so the
claimed (B, 2)-shaped parameter batch is never produced. -/
theorem SeriesIterator.next_arity_three_counterexample :
    it3a.next = Except.error PyError.typeError ∧
    ∀ batch it2, it3a.next ≠ Except.ok (batch, it2) := by
  constructor
  · rfl
  · intro batch it2 h
    rw [show it3a.next = Except.error PyError.typeError from rfl] at h
    cases h
/-- Indexing a mapped list with defaults: inside bounds, the function is
applied to the underlying entry. -/
theorem getD_map_of_lt {α β : Type} (l : List α) (f : α → β) (dβ : β)
    (dα : α) (i : Nat) (hi : i < l.length) :
    (l.map f).getD i dβ = f (l.getD i dα) := by
  rw [List.getD_eq_getElem _ dβ (by simpa using hi), List.getElem_map,
    List.getD_eq_getElem _ dα hi]

/-- C1: over a transition with exactly one state variable and N
forkable inputs, construction followed by pushing the allocation config
yields exactly N adder MLPs — the i-th with input dimensionality
`num_params` and output dimensionality the transition's declared
dimensionality of the i-th forkable input — plus one init MLP with
input dimensionality `num_params` and output dimensionality the
declared dimensionality of the single state variable. -/
theorem AddParameters.allocation_config_projections
    (t : Transition) (np : Nat) (pn : String) (st : String)
    (hst : t.applySignature.state_names = [st]) :
    ∃ ap ap', AddParameters.make t np pn = .ok ap ∧
      ap.push_allocation_config = .ok ap' ∧
      ap'.adders.length = t.applySignature.forkable_input_names.length ∧
      (∀ i : Nat, i < t.applySignature.forkable_input_names.length →
        (ap'.adders.getD i default).dims =
          [some np, some (t.applySignature.dims
            (t.applySignature.forkable_input_names.getD i ""))]) ∧
      ap'.init.dims = [some np, some (t.applySignature.dims st)] := by
  refine ⟨{ transition := t, num_params := np, params_name := pn
            input_names := t.applySignature.forkable_input_names
            state_name := st
            adders := t.applySignature.forkable_input_names.map
              (fun n => MLP.fresh ("add_" ++ n))
            init := MLP.fresh "init" },
          { transition := t, num_params := np, params_name := pn
            input_names := t.applySignature.forkable_input_names
            state_name := st
            adders := t.applySignature.forkable_input_names.map
              (fun n => { name := "add_" ++ n
                          dims := [some np, some (t.applySignature.dims n)]
                          W := [], b := [] })
            init := { name := "init"
                      dims := [some np, some (t.applySignature.dims st)]
                      W := [], b := [] } },
          ?_, ?_, ?_, ?_, ?_⟩
  · unfold AddParameters.make
    simp only [hst]
    rfl
  · unfold AddParameters.push_allocation_config
    simp only [hst, zip_map_self, List.map_map]
    simp [MLP.fresh, setFirstLast, Function.comp]
  · simp
  · intro i hi
    rw [getD_map_of_lt _ _ default "" i hi]
  · rfl

/-- C1 witness: the concrete one-state, three-input transition yields
three adders with the declared per-input output dimensionalities, plus
the init map with the state's dimensionality. -/
theorem AddParameters.allocation_config_projections_witness :
    ∃ ap ap', AddParameters.make gatedTransition 2 "params" = .ok ap ∧
      ap.push_allocation_config = .ok ap' ∧
      ap'.adders.length = 3 ∧
      (∀ i : Nat, i < 3 →
        (ap'.adders.getD i default).dims =
          [some 2, some (gatedTransition.applySignature.dims
            (gatedTransition.applySignature.forkable_input_names.getD i ""))]) ∧
      ap'.init.dims = [some 2, some 13] :=
  AddParameters.allocation_config_projections gatedTransition 2 "params"
    "states" rfl
/-- C4: the wrapper's signature registers `initialize_state` as the
init function of the single state variable, and `initialize_state`
returns the init brick's linear projection of the `params` keyword
argument — the initial state is a projection of the parameter vector,
not a fixed learned vector. -/
theorem AddParameters.registered_init_is_projection (ap : AddParameters) :
    ap.apply_signature.state_init_funcs ap.state_name
      = some ap.initialize_state ∧
    (∀ (kw : Kwargs) (v : Vec), kw ap.params_name = some v →
      ap.initialize_state kw = some (ap.init.apply v)) := by
  constructor
  · simp [AddParameters.apply_signature]
  · intro kw v h
    simp [AddParameters.initialize_state, h]

/-- C4 witness: on the concrete wrapper and keyword arguments, the
registered init function returns the init projection of the concrete
parameter vector. -/
theorem AddParameters.registered_init_is_projection_witness :
    smallAddParameters.apply_signature.state_init_funcs
        smallAddParameters.state_name
      = some smallAddParameters.initialize_state ∧
    smallAddParameters.initialize_state smallKwargs =
      some (smallAddParameters.init.apply [4]) :=
  ⟨(AddParameters.registered_init_is_projection smallAddParameters).1,
   (AddParameters.registered_init_is_projection smallAddParameters).2
     smallKwargs [4] (by simp [smallKwargs, smallAddParameters])⟩
/-- Unfolding `popAll` under the success conditions: when the listed
names are distinct and all present, the comprehension yields the pairs
in order and the kwargs dict with exactly those keys removed. -/
theorem popAll_spec : ∀ (names : List String) (kwargs : Kwargs),
    names.Nodup → (∀ n ∈ names, (kwargs n).isSome) →
    popAll names kwargs =
      some (names.map (fun n => (n, (kwargs n).getD [])),
            fun n => if n ∈ names then none else kwargs n)
  | [], kwargs, _, _ => by
    have h : (fun n => if n ∈ ([] : List String) then none else kwargs n)
        = kwargs := by
      funext n; simp
    simp [popAll, h]
  | a :: rest, kwargs, hnd, hin => by
    rw [List.nodup_cons] at hnd
    obtain ⟨hna, hndrest⟩ := hnd
    obtain ⟨v, hv⟩ := Option.isSome_iff_exists.mp
      (hin a (List.mem_cons_self a rest))
    have hin1 : ∀ n ∈ rest,
        ((fun n => if n = a then none else kwargs n) n).isSome := by
      intro n hn
      have hne : n ≠ a := fun h => hna (h ▸ hn)
      simp only [hne, if_false]
      exact hin n (List.mem_cons_of_mem a hn)
    have hrec := popAll_spec rest (fun n => if n = a then none else kwargs n)
      hndrest hin1
    simp only [popAll, pop, hv, hrec]
    refine congrArg some (Prod.ext ?_ ?_)
    · simp only [List.map_cons]
      refine congrArg₂ _ (by rw [hv]; rfl) ?_
      refine List.map_congr_left ?_
      intro n hn
      have hne : n ≠ a := fun h => hna (h ▸ hn)
      simp [hne]
    · funext n
      by_cases hmem : n ∈ rest
      · simp [hmem]
      · by_cases hna2 : n = a
        · subst hna2; simp [hmem, hna]
        · simp [hmem, hna2]

/-- Lookup in an association list built by pairing each name with its
image: inside the key set it returns the image, outside it nothing. -/
theorem alLookup_map_keys (names : List String) (f : String → Vec)
    (k : String) :
    alLookup (names.map (fun n => (n, f n))) k =
      if k ∈ names then some (f k) else none := by
  induction names with
  | nil => simp [alLookup]
  | cons a rest ih =>
    simp only [List.map_cons, alLookup]
    by_cases h : a = k
    · subst h; simp
    · rw [if_neg h, ih]
      have hiff : (k ∈ a :: rest) ↔ (k ∈ rest) := by
        simp only [List.mem_cons]
        exact or_iff_right (fun hh => h hh.symm)
      by_cases hm : k ∈ rest
      · rw [if_pos hm, if_pos (hiff.mpr hm)]
      · rw [if_neg hm, if_neg (fun hh => hm (hiff.mp hh))]

/-- Lookup after an in-place value update: the updated key maps to the
new value when it was present, every other key is untouched. -/
theorem alLookup_alUpdate (l : List (String × Vec)) (k : String) (v : Vec)
    (n : String) :
    alLookup (alUpdate l k v) n =
      if n = k then (alLookup l k).map (fun _ => v) else alLookup l n := by
  induction l with
  | nil =>
    by_cases h : n = k <;> simp [alLookup, alUpdate, h]
  | cons p rest ih =>
    obtain ⟨a, w⟩ := p
    show alLookup ((if a = k then (k, v) else (a, w)) :: alUpdate rest k v) n = _
    by_cases hak : a = k <;> by_cases hna : n = a
    · simp_all [alLookup, alUpdate]
    · simp_all [alLookup, alUpdate]
      have h2 : k ≠ n := fun hh => hna hh.symm
      simp [h2]
    · simp_all [alLookup, alUpdate]
    · simp_all [alLookup, alUpdate]
      have h2 : a ≠ n := fun hh => hna hh.symm
      simp [h2]

/-- One step of the adder-loop specification fold. -/
theorem addedValue_cons (p : String × MLP) (l : List (String × MLP))
    (params : Vec) (n : String) (v : Option Vec) :
    addedValue (p :: l) params n v =
      addedValue l params n
        (if p.1 = n then v.map (fun x => addVec x (p.2.apply params)) else v) :=
  rfl

/-- The adder-loop fold leaves a key untouched when no pair names it. -/
theorem addedValue_not_mem : ∀ (l : List (String × MLP)) (params : Vec)
    (n : String), (∀ p ∈ l, p.1 ≠ n) → ∀ v, addedValue l params n v = v
  | [], _, _, _, _ => rfl
  | p :: rest, params, n, h, v => by
    rw [addedValue_cons, if_neg (h p (List.mem_cons_self _ _))]
    exact addedValue_not_mem rest params n
      (fun q hq => h q (List.mem_cons_of_mem _ hq)) v

/-- On distinct names zipped with their adders, the fold at the i-th
name applies exactly the i-th adder's projection. -/
theorem addedValue_zip_getD : ∀ (names : List String) (adders : List MLP),
    names.Nodup → adders.length = names.length → ∀ (params : Vec) (i : Nat),
    i < names.length → ∀ v : Option Vec,
    addedValue (names.zip adders) params (names.getD i "") v =
      v.map (fun x => addVec x ((adders.getD i default).apply params))
  | [], _, _, _, _, i, hi, _ => absurd hi (by simp)
  | _ :: _, [], _, hlen, _, _, _, _ => by simp at hlen
  | a :: names, ad :: adders, hnd, hlen, params, 0, hi, v => by
    rw [List.nodup_cons] at hnd
    show addedValue ((a, ad) :: names.zip adders) params a v = _
    rw [addedValue_cons, if_pos rfl]
    refine addedValue_not_mem _ params a ?_ _
    rintro ⟨q1, q2⟩ hq
    have hq1 : q1 ∈ names := (List.of_mem_zip hq).1
    exact fun he => hnd.1 (he ▸ hq1)
  | a :: names, ad :: adders, hnd, hlen, params, i + 1, hi, v => by
    rw [List.nodup_cons] at hnd
    have hi' : i < names.length := by simpa using hi
    have hmem : names.getD i "" ∈ names := by
      rw [List.getD_eq_getElem names "" hi']
      exact List.getElem_mem _
    have hne : a ≠ names.getD i "" := fun he => hnd.1 (he ▸ hmem)
    show addedValue ((a, ad) :: names.zip adders) params (names.getD i "") v = _
    rw [addedValue_cons, if_neg hne]
    exact addedValue_zip_getD names adders hnd.2 (by simpa using hlen) params
      i hi' v

/-- Unfolding the adder loop under its success conditions: when every
listed name has an entry, the loop returns a dict whose lookups are
described by the `addedValue` fold. -/
theorem addAdders_spec : ∀ (l : List (String × MLP)) (params : Vec)
    (inputs : List (String × Vec)),
    (∀ p ∈ l, (alLookup inputs p.1).isSome) →
    ∃ out, addAdders l params inputs = some out ∧
      ∀ n, alLookup out n = addedValue l params n (alLookup inputs n)
  | [], _, inputs, _ => ⟨inputs, rfl, fun _ => rfl⟩
  | (name, adder) :: rest, params, inputs, hin => by
    obtain ⟨v, hv⟩ := Option.isSome_iff_exists.mp
      (hin (name, adder) (List.mem_cons_self _ _))
    have hupd : ∀ n,
        alLookup (alUpdate inputs name (addVec v (adder.apply params))) n =
          if n = name then some (addVec v (adder.apply params))
          else alLookup inputs n := by
      intro n
      rw [alLookup_alUpdate]
      by_cases h : n = name
      · rw [if_pos h, if_pos h, hv]; rfl
      · rw [if_neg h, if_neg h]
    have hin' : ∀ p ∈ rest,
        (alLookup (alUpdate inputs name (addVec v (adder.apply params)))
          p.1).isSome := by
      intro p hp
      rw [hupd]
      by_cases h : p.1 = name
      · simp [h]
      · rw [if_neg h]
        exact hin p (List.mem_cons_of_mem _ hp)
    obtain ⟨out, hout, hchar⟩ := addAdders_spec rest params _ hin'
    refine ⟨out, ?_, ?_⟩
    · show (match alLookup inputs name with
        | none => none
        | some v =>
          addAdders rest params
            (alUpdate inputs name (addVec v (adder.apply params)))) = some out
      rw [hv]
      exact hout
    · intro n
      rw [hchar n, hupd n, addedValue_cons]
      congr 1
      by_cases h : name = n
      · cases h
        rw [if_pos rfl, if_pos rfl, hv]
        rfl
      · rw [if_neg (fun hh : n = name => h hh.symm), if_neg h]

/-- C3: applying the wrapper with keyword arguments that provide every
forkable input and a `params` vector calls the wrapped transition's
apply on arguments in which each forkable input has been replaced by
that input plus the corresponding adder's linear projection of the
parameter vector (the `params` key itself is consumed, every other
keyword argument passes through unchanged). -/
theorem AddParameters.apply_adds_projected_params
    (ap : AddParameters) (kwargs : Kwargs) (pvec : Vec)
    (hlen : ap.adders.length = ap.input_names.length)
    (hnd : ap.input_names.Nodup)
    (hnp : "params" ∉ ap.input_names)
    (hin : ∀ n ∈ ap.input_names, (kwargs n).isSome)
    (hp : kwargs "params" = some pvec) :
    ∃ g : Kwargs,
      ap.apply kwargs = some (ap.transition.applyFn g) ∧
      (∀ i : Nat, i < ap.input_names.length →
        g (ap.input_names.getD i "") =
          some (addVec ((kwargs (ap.input_names.getD i "")).getD [])
            ((ap.adders.getD i default).apply pvec))) ∧
      g "params" = none ∧
      (∀ n, n ∉ ap.input_names → n ≠ "params" → g n = kwargs n) := by
  have hpop := popAll_spec ap.input_names kwargs hnd hin
  have hinputs_lookup : ∀ k,
      alLookup (ap.input_names.map (fun n => (n, (kwargs n).getD []))) k =
        if k ∈ ap.input_names then some ((kwargs k).getD []) else none :=
    fun k => alLookup_map_keys ap.input_names (fun n => (kwargs n).getD []) k
  have hpre : ∀ p ∈ ap.input_names.zip ap.adders,
      (alLookup (ap.input_names.map (fun n => (n, (kwargs n).getD [])))
        p.1).isSome := by
    intro p hpmem
    have h1 : p.1 ∈ ap.input_names := (List.of_mem_zip hpmem).1
    rw [hinputs_lookup]
    simp [h1]
  obtain ⟨out, hout, hchar⟩ :=
    addAdders_spec (ap.input_names.zip ap.adders) pvec _ hpre
  have happly : ap.apply kwargs = some (ap.transition.applyFn (fun n =>
      match alLookup out n with
      | some v => some v
      | none =>
        if n = "params" then none
        else if n ∈ ap.input_names then none else kwargs n)) := by
    unfold AddParameters.apply
    rw [hpop]
    simp only [pop, hnp, if_false, hp, hout]
  refine ⟨_, happly, ?_, ?_, ?_⟩
  · intro i hi
    have hmem : ap.input_names.getD i "" ∈ ap.input_names := by
      rw [List.getD_eq_getElem ap.input_names "" hi]
      exact List.getElem_mem _
    show (match alLookup out (ap.input_names.getD i "") with
      | some v => some v
      | none => _) = _
    rw [hchar, hinputs_lookup, if_pos hmem,
      addedValue_zip_getD ap.input_names ap.adders hnd hlen pvec i hi]
    rfl
  · have hkeys : ∀ p ∈ ap.input_names.zip ap.adders, p.1 ≠ "params" := by
      rintro ⟨q1, q2⟩ hq
      have hq1 : q1 ∈ ap.input_names := (List.of_mem_zip hq).1
      exact fun he => hnp (he ▸ hq1)
    show (match alLookup out "params" with
      | some v => some v
      | none =>
        if "params" = "params" then none
        else if "params" ∈ ap.input_names then none else kwargs "params") = none
    rw [hchar, hinputs_lookup, if_neg hnp,
      addedValue_not_mem _ pvec "params" hkeys none]
    rfl
  · intro n hn hnparams
    have hkeys : ∀ p ∈ ap.input_names.zip ap.adders, p.1 ≠ n := by
      rintro ⟨q1, q2⟩ hq
      have hq1 : q1 ∈ ap.input_names := (List.of_mem_zip hq).1
      exact fun he => hn (he ▸ hq1)
    show (match alLookup out n with
      | some v => some v
      | none =>
        if n = "params" then none
        else if n ∈ ap.input_names then none else kwargs n) = kwargs n
    rw [hchar, hinputs_lookup, if_neg hn,
      addedValue_not_mem _ pvec n hkeys none]
    show (if n = "params" then none
      else if n ∈ ap.input_names then none else kwargs n) = kwargs n
    rw [if_neg hnparams, if_neg hn]

/-- C3 witness: the concrete wrapper applied to concrete keyword
arguments providing its single input and a parameter vector. -/
theorem AddParameters.apply_adds_projected_params_witness :
    ∃ g : Kwargs,
      smallAddParameters.apply smallKwargs =
        some (smallAddParameters.transition.applyFn g) ∧
      (∀ i : Nat, i < smallAddParameters.input_names.length →
        g (smallAddParameters.input_names.getD i "") =
          some (addVec
            ((smallKwargs (smallAddParameters.input_names.getD i "")).getD [])
            ((smallAddParameters.adders.getD i default).apply [4]))) ∧
      g "params" = none ∧
      (∀ n, n ∉ smallAddParameters.input_names → n ≠ "params" →
        g n = smallKwargs n) :=
  AddParameters.apply_adds_projected_params smallAddParameters smallKwargs [4]
    (by decide) (by decide) (by decide) (by decide) (by decide)
